import Mathlib

/-!
Bulghousing backend: shallow embedding and verification

This file embeds the two source files of the Bulghousing backend
(`main.py` and `schemas.py`) as Lean definitions and proves/refutes the
frozen claims about them.

Modelling conventions:
* Python floats are idealised as rationals (`ℚ`); `round(x, 2)` is
  round-half-to-even at the second decimal, over `ℚ`.
* A stored document is an association list from field names to JSON-like
  values (`Doc`), mirroring the dict that is inserted into the store.
* The document store (`database.py` is not among the sources) is modelled
  from the spec as a list of documents with insert-one / find-many.
* The store's query language (`$or`, `$regex` with the `i` option,
  equality, `$gte`/`$lte`) is modelled after the documented behaviour of
  the document store: `$regex` performs an *unanchored regular-expression*
  match, not a literal substring match.
-/

namespace Bulghousing

/-- JSON-like field values as they occur in the listing documents.
Lists of strings (`images`) are the only list shape the schema admits. -/
inductive Value where
  | str (s : String)
  | num (q : ℚ)
  | null
  | strList (ss : List String)
deriving DecidableEq, Repr

/-- A document: an association list from field name to value, mirroring a
Python dict / stored document. -/
abbrev Doc := List (String × Value)

/-- Field lookup in a document (first binding wins, as in a dict). -/
def getField (d : Doc) (k : String) : Option Value :=
  (d.find? (fun kv => kv.1 == k)).map (fun kv => kv.2)

/-- The closed set of 28 Bulgarian regions (`schemas.py`). -/
def BULGARIAN_REGIONS : List String :=
  ["Blagoevgrad", "Burgas", "Dobrich", "Gabrovo", "Haskovo", "Kardzhali",
   "Kyustendil", "Lovech", "Montana", "Pazardzhik", "Pernik", "Pleven",
   "Plovdiv", "Razgrad", "Ruse", "Shumen", "Silistra", "Sliven", "Smolyan",
   "Sofia City", "Sofia Province", "Stara Zagora", "Targovishte", "Varna",
   "Veliko Tarnovo", "Vidin", "Vratsa", "Yambol"]

/-- The `Property` Pydantic model of `schemas.py` (also the body type
`CreatePropertyRequest` of the create endpoint), as a validated record. -/
structure Property where
  title : String
  region : String
  address : Option String
  description : Option String
  size_sqm : ℚ
  currency : String
  price_value : ℚ
  images : Option (List String)
deriving DecidableEq, Repr

/-- Validation of the `title` field: required, must be a string
(`title: str = Field(...)`; no emptiness constraint is declared). -/
def titleVal (p : Doc) : Option String :=
  match getField p "title" with
  | some (Value.str s) => some s
  | _ => none

/-- Validation of the `region` field: required, must be a string drawn from
the closed region set (`region: Literal[tuple(BULGARIAN_REGIONS)]`). -/
def regionVal (p : Doc) : Option String :=
  match getField p "region" with
  | some (Value.str r) => if r ∈ BULGARIAN_REGIONS then some r else none
  | _ => none

/-- Validation of the optional `address` field (`Optional[str]`, default
`None`): absent or null becomes `none`; a string is accepted. -/
def addressVal (p : Doc) : Option (Option String) :=
  match getField p "address" with
  | none => some none
  | some Value.null => some none
  | some (Value.str s) => some (some s)
  | _ => none

/-- Validation of the optional `description` field (`Optional[str]`). -/
def descriptionVal (p : Doc) : Option (Option String) :=
  match getField p "description" with
  | none => some none
  | some Value.null => some none
  | some (Value.str s) => some (some s)
  | _ => none

/-- The longest leading run of decimal digits, as digit values, with the
remaining characters. -/
def takeDigits : List Char → List ℕ × List Char
  | [] => ([], [])
  | c :: t =>
    if c.isDigit then
      ((c.toNat - 48) :: (takeDigits t).1, (takeDigits t).2)
    else ([], c :: t)

/-- Digit values read as a base-10 natural number. -/
def digitsToNat (ds : List ℕ) : ℕ := ds.foldl (fun a d => 10 * a + d) 0

/-- Digit values read as a base-10 fraction (the part after the decimal
point). -/
def fracVal (ds : List ℕ) : ℚ := (digitsToNat ds : ℚ) / 10 ^ ds.length

/-- Parse an unsigned decimal mantissa — `digits`, `digits.`,
`digits.digits` or `.digits` — returning its value and the remaining
characters. -/
def parseMantissa (cs : List Char) : Option (ℚ × List Char) :=
  match takeDigits cs with
  | ([], '.' :: rest2) =>
    match takeDigits rest2 with
    | ([], _) => none
    | (fs, rest3) => some (fracVal fs, rest3)
  | ([], _) => none
  | (ds, '.' :: rest2) =>
    match takeDigits rest2 with
    | (fs, rest3) => some ((digitsToNat ds : ℚ) + fracVal fs, rest3)
  | (ds, rest) => some ((digitsToNat ds : ℚ), rest)

/-- Parse a full exponent suffix — optional sign then digits, consuming
everything that remains. -/
def parseExpRest (cs : List Char) : Option ℤ :=
  let st : ℤ × List Char :=
    match cs with
    | '+' :: t => (1, t)
    | '-' :: t => (-1, t)
    | t => (1, t)
  match takeDigits st.2 with
  | ([], _) => none
  | (ds, []) => some (st.1 * (digitsToNat ds : ℤ))
  | (_, _ :: _) => none

/-- The numeric reading of a string under Pydantic v2 lax validation
(used by the `float` fields): surrounding whitespace is ignored, then an
optional sign, a decimal mantissa and an optional `e`/`E` exponent, as
Python's `float()` accepts. Underscore digit separators and the
non-finite spellings (`inf`, `nan`), which have no rational value, are
outside the modelled fragment. -/
def numFromString (s : String) : Option ℚ :=
  let cs := ((s.toList.dropWhile Char.isWhitespace).reverse.dropWhile
    Char.isWhitespace).reverse
  let sgn : ℚ × List Char :=
    match cs with
    | '+' :: t => (1, t)
    | '-' :: t => (-1, t)
    | t => (1, t)
  match parseMantissa sgn.2 with
  | none => none
  | some (m, rest) =>
    match rest with
    | [] => some (sgn.1 * m)
    | e :: rest2 =>
      if e = 'e' ∨ e = 'E' then
        match parseExpRest rest2 with
        | none => none
        | some ex => some (sgn.1 * m * 10 ^ ex)
      else none

/-- Validation of `size_sqm` (`float = Field(..., gt=0)`): a number, or —
Pydantic v2 lax mode — a string that reads as a number, is coerced and
then checked against `gt=0`. -/
def sizeVal (p : Doc) : Option ℚ :=
  match getField p "size_sqm" with
  | some (Value.num x) => if 0 < x then some x else none
  | some (Value.str s) =>
    match numFromString s with
    | some x => if 0 < x then some x else none
    | none => none
  | _ => none

/-- Validation of `currency` (`Literal["EUR", "BGN"] = Field("EUR")`):
absent means the default `"EUR"`; a present value must be one of the two
currency literals. -/
def currencyVal (p : Doc) : Option String :=
  match getField p "currency" with
  | none => some "EUR"
  | some (Value.str c) => if c = "EUR" ∨ c = "BGN" then some c else none
  | _ => none

/-- Validation of `price_value` (`float = Field(..., gt=0)`): a number,
or — Pydantic v2 lax mode — a string that reads as a number, is coerced
and then checked against `gt=0`. -/
def priceVal (p : Doc) : Option ℚ :=
  match getField p "price_value" with
  | some (Value.num x) => if 0 < x then some x else none
  | some (Value.str s) =>
    match numFromString s with
    | some x => if 0 < x then some x else none
    | none => none
  | _ => none

/-- Validation of the optional `images` field (`Optional[List[str]]`). -/
def imagesVal (p : Doc) : Option (Option (List String)) :=
  match getField p "images" with
  | none => some none
  | some Value.null => some none
  | some (Value.strList ss) => some (some ss)
  | _ => none

/-- Helper: the error contribution of one field check. -/
def errIf {α : Type} (o : Option α) (fld : String) : List String :=
  match o with
  | some _ => []
  | none => [fld]

/-- The offending fields of a create payload, in declaration order, as the
Pydantic model reports them (all field errors are collected). -/
def validateErrors (p : Doc) : List String :=
  errIf (titleVal p) "title" ++ errIf (regionVal p) "region" ++
  errIf (addressVal p) "address" ++ errIf (descriptionVal p) "description" ++
  errIf (sizeVal p) "size_sqm" ++ errIf (currencyVal p) "currency" ++
  errIf (priceVal p) "price_value" ++ errIf (imagesVal p) "images"

/-- Pydantic validation of a create payload against the `Property` model:
either the validated record or the list of offending fields. -/
def validateProperty (p : Doc) : Except (List String) Property :=
  if (validateErrors p).isEmpty then
    Except.ok
      { title := (titleVal p).getD ""
        region := (regionVal p).getD ""
        address := (addressVal p).getD none
        description := (descriptionVal p).getD none
        size_sqm := (sizeVal p).getD 0
        currency := (currencyVal p).getD "EUR"
        price_value := (priceVal p).getD 0
        images := (imagesVal p).getD none }
  else
    Except.error (validateErrors p)

/-- The fixed rate `EUR_TO_BGN = 1.95583` of `main.py`, exact as a rational. -/
def EUR_TO_BGN : ℚ := 195583 / 100000

/-- Round half to even to the nearest integer — the semantics of Python's
`round`, idealised over `ℚ`. -/
def roundHalfEven (x : ℚ) : ℤ :=
  if x - ⌊x⌋ < 1/2 then ⌊x⌋
  else if 1/2 < x - ⌊x⌋ then ⌊x⌋ + 1
  else if ⌊x⌋ % 2 = 0 then ⌊x⌋ else ⌊x⌋ + 1

/-- Python's `round(x, 2)`: round half to even at the second decimal. -/
def round2 (x : ℚ) : ℚ := (roundHalfEven (x * 100) : ℚ) / 100

/-- The dict `payload.model_dump()` of a validated record, in field declaration
order. -/
def model_dump (r : Property) : Doc :=
  [("title", Value.str r.title),
   ("region", Value.str r.region),
   ("address", (r.address.map Value.str).getD Value.null),
   ("description", (r.description.map Value.str).getD Value.null),
   ("size_sqm", Value.num r.size_sqm),
   ("currency", Value.str r.currency),
   ("price_value", Value.num r.price_value),
   ("images", (r.images.map Value.strList).getD Value.null)]

/-- Modelled from the spec: `create_document` lives in `database.py`, which
is not among the provided sources; per the spec the store supports
insert-one returning a generated identity. The store is a list of
documents, the generated identity is the decimal string of the store size,
and the inserted document carries the identity under `_id`. -/
def create_document (store : List Doc) (data : Doc) : String × List Doc :=
  let inserted_id := toString store.length
  (inserted_id, store ++ [data ++ [("_id", Value.str inserted_id)]])

/-- The create handler `create_property` of `main.py`: validate the payload, normalise the price
into both currencies (rounded to 2 decimals), insert the document, and
return the generated identity. Validation failure rejects the request with
the offending fields and leaves the store untouched. -/
def create_property (store : List Doc) (payload : Doc) :
    Except (List String) String × List Doc :=
  match validateProperty payload with
  | Except.error e => (Except.error e, store)
  | Except.ok data =>
    let cur := data.currency
    let price_value := data.price_value
    let prices :=
      if cur = "EUR" then (price_value, price_value * EUR_TO_BGN)
      else (price_value / EUR_TO_BGN, price_value)
    let doc := model_dump data ++
      [("price_eur", Value.num (round2 prices.1)),
       ("price_bgn", Value.num (round2 prices.2))]
    let inserted := create_document store doc
    (Except.ok inserted.1, inserted.2)

/-- Stated from the spec's words (claim C1): the pair
`(price_eur, price_bgn)` the normalisation step is required to produce —
if the currency is EUR the EUR price is the given value and the BGN price
is the value times 1.95583, otherwise symmetrically; both rounded to two
decimals. -/
def specNormalizedPrices (price_value : ℚ) (currency : String) : ℚ × ℚ :=
  if currency = "EUR" then (round2 price_value, round2 (price_value * EUR_TO_BGN))
  else (round2 (price_value / EUR_TO_BGN), round2 price_value)

/-! ## The store's regular-expression matching (`$regex` with `$options: "i"`)

The search handler forwards `q` verbatim as a `$regex` pattern with the
case-insensitive option. We model the store's documented behaviour: an
*unanchored* regular-expression match. The modelled pattern fragment covers
literals, `\`-escapes, `.`, and the postfix operators `*`, `+`, `?`;
patterns using the unsupported constructs `( ) [ ] \x7b \x7d | ^ $` (or a
dangling postfix/escape) fall outside the model and are treated as
non-matching. Case-insensitivity: literals compare under `Char.toLower`. -/

/-- Regular expressions over characters. -/
inductive RE where
  | emp
  | eps
  | lit (c : Char)
  | dot
  | alt (a b : RE)
  | cat (a b : RE)
  | star (a : RE)
deriving DecidableEq, Repr

/-- Does the expression accept the empty word? -/
def nullable : RE → Bool
  | RE.emp => false
  | RE.eps => true
  | RE.lit _ => false
  | RE.dot => false
  | RE.alt a b => nullable a || nullable b
  | RE.cat a b => nullable a && nullable b
  | RE.star _ => true

/-- Brzozowski derivative by one character; literals are compared
case-insensitively (the `i` option). -/
def deriv : RE → Char → RE
  | RE.emp, _ => RE.emp
  | RE.eps, _ => RE.emp
  | RE.lit c, d => if c.toLower = d.toLower then RE.eps else RE.emp
  | RE.dot, _ => RE.eps
  | RE.alt a b, d => RE.alt (deriv a d) (deriv b d)
  | RE.cat a b, d =>
    if nullable a then RE.alt (RE.cat (deriv a d) b) (deriv b d)
    else RE.cat (deriv a d) b
  | RE.star a, d => RE.cat (deriv a d) (RE.star a)

/-- Whole-word match via iterated derivatives. -/
def reMatch (r : RE) (s : List Char) : Bool := nullable (s.foldl deriv r)

/-- Unanchored match: the expression matches some contiguous part of the
word (full match of `.* r .*`). -/
def reSearch (r : RE) (s : List Char) : Bool :=
  reMatch (RE.cat (RE.star RE.dot) (RE.cat r (RE.star RE.dot))) s

/-- Pattern characters outside the modelled fragment. -/
def unsupportedChars : List Char :=
  ['(', ')', '[', ']', Char.ofNat 123, Char.ofNat 125, '|', '^', '$']

/-- Parse one pattern atom: an escape, the wildcard `.`, or a literal;
metacharacters outside the fragment (and a dangling escape or a leading
postfix operator) are refused. Returns the atom and the remaining
pattern. -/
def parseAtom (c : Char) (rest : List Char) : Option (RE × List Char) :=
  if c = '\\' then
    match rest with
    | [] => none
    | d :: r2 => some (RE.lit d, r2)
  else if c ∈ unsupportedChars ∨ c = '*' ∨ c = '+' ∨ c = '?' then none
  else if c = '.' then some (RE.dot, rest)
  else some (RE.lit c, rest)

/-- Parse the modelled pattern fragment, with fuel (each step consumes at
least one character, so `length + 1` fuel always suffices): an atom, an
optional postfix `*`/`+`/`?`, then the rest of the pattern. -/
def parseRE : Nat → List Char → Option RE
  | 0, _ => none
  | _ + 1, [] => some RE.eps
  | n + 1, c :: rest =>
    (parseAtom c rest).bind (fun ar =>
      match ar.2 with
      | [] => (parseRE n []).map (fun t => RE.cat ar.1 t)
      | d :: r3 =>
        if d = '*' then (parseRE n r3).map (fun t => RE.cat (RE.star ar.1) t)
        else if d = '+' then
          (parseRE n r3).map (fun t => RE.cat (RE.cat ar.1 (RE.star ar.1)) t)
        else if d = '?' then
          (parseRE n r3).map (fun t => RE.cat (RE.alt ar.1 RE.eps) t)
        else (parseRE n (d :: r3)).map (fun t => RE.cat ar.1 t))

/-- The store's `$regex` test with the `i` option: parse the pattern and
search the subject unanchored. -/
def regexTest (pat s : String) : Bool :=
  match parseRE (pat.toList.length + 1) pat.toList with
  | some r => reSearch r s.toList
  | none => false

/-! ## Search parameters, filter construction and execution -/

/-- The typed query parameters of the search handler, after the framework
has parsed/validated them (the handler's signature in `main.py`). -/
structure SearchParams where
  q : Option String := none
  region : Option String := none
  min_price : Option ℚ := none
  max_price : Option ℚ := none
  price_currency : Option String := some "EUR"
  min_sqm : Option ℚ := none
  max_sqm : Option ℚ := none
  limit : Nat := 50
deriving DecidableEq, Repr

/-- The raw (pre-validation) query parameters as supplied by the client;
`none` means the parameter was absent from the request. -/
structure RawSearchParams where
  q : Option String := none
  region : Option String := none
  min_price : Option ℚ := none
  max_price : Option ℚ := none
  price_currency : Option String := none
  min_sqm : Option ℚ := none
  max_sqm : Option ℚ := none
  limit : Option Int := none
deriving DecidableEq, Repr

/-- Helper: error contribution of a `Query(None, ge=0)` float parameter. -/
def nonnegErr (v : Option ℚ) (fld : String) : List String :=
  match v with
  | none => []
  | some x => if 0 ≤ x then [] else [fld]

/-- The offending query parameters of a search request, per the constraint
annotations in the handler signature (`Literal` sets, `ge=0`, and
`Query(50, ge=1, le=200)` for `limit`). -/
def searchParamErrors (raw : RawSearchParams) : List String :=
  (match raw.region with
   | none => []
   | some r => if r ∈ BULGARIAN_REGIONS then [] else ["region"]) ++
  nonnegErr raw.min_price "min_price" ++
  nonnegErr raw.max_price "max_price" ++
  (match raw.price_currency with
   | none => []
   | some c => if c = "EUR" ∨ c = "BGN" then [] else ["price_currency"]) ++
  nonnegErr raw.min_sqm "min_sqm" ++
  nonnegErr raw.max_sqm "max_sqm" ++
  (match raw.limit with
   | none => []
   | some v => if 1 ≤ v ∧ v ≤ 200 then [] else ["limit"])

/-- Framework-level parsing of the search query string: constraint
violations are rejected with the offending parameter names; otherwise the
declared defaults are filled in (`price_currency = "EUR"`, `limit = 50`). -/
def parseSearchParams (raw : RawSearchParams) :
    Except (List String) SearchParams :=
  if (searchParamErrors raw).isEmpty then
    Except.ok
      { q := raw.q
        region := raw.region
        min_price := raw.min_price
        max_price := raw.max_price
        price_currency := some (raw.price_currency.getD "EUR")
        min_sqm := raw.min_sqm
        max_sqm := raw.max_sqm
        limit := (raw.limit.getD 50).toNat }
  else
    Except.error (searchParamErrors raw)

/-- An inclusive numeric range condition (the dict the handler builds from
`$gte`/`$lte`; an empty range means the key is never added, so no
constraint). -/
structure RangeCond where
  gte : Option ℚ := none
  lte : Option ℚ := none
deriving DecidableEq, Repr

/-- The filter dict the search handler builds. `orRegex` is the `$or`
clause (case-insensitive regex against title/description/address — by
construction all three sub-conditions share the same pattern `q`);
`region` an equality clause; `price`/`size` range clauses keyed by
`priceField`/`"size_sqm"`. -/
structure MongoFilter where
  orRegex : Option String := none
  region : Option String := none
  priceField : String := "price_eur"
  price : RangeCond := {}
  size : RangeCond := {}
deriving DecidableEq, Repr

/-- The filter-building part of `search_properties` in `main.py`. `if q:` and
`if region:` test Python truthiness (absent or empty string contribute no
clause); the price field is `price_eur` exactly when `price_currency` is
`"EUR"`. -/
def buildMongoFilter (p : SearchParams) : MongoFilter :=
  { orRegex := if p.q.getD "" = "" then none else p.q
    region := if p.region.getD "" = "" then none else p.region
    priceField := if p.price_currency = some "EUR" then "price_eur" else "price_bgn"
    price := { gte := p.min_price, lte := p.max_price }
    size := { gte := p.min_sqm, lte := p.max_sqm } }

/-- One `$regex` sub-condition of the `$or` clause: the field must be
present, be a string, and match the pattern (a missing or null field never
matches). -/
def matchRegexField (d : Doc) (k : String) (pat : String) : Bool :=
  match getField d k with
  | some (Value.str s) => regexTest pat s
  | _ => false

/-- The `$gte` condition on a document field: numeric comparison, missing or non-numeric
fields do not match. -/
def cmpGe (d : Doc) (k : String) (b : ℚ) : Bool :=
  match getField d k with
  | some (Value.num x) => decide (b ≤ x)
  | _ => false

/-- The `$lte` condition on a document field. -/
def cmpLe (d : Doc) (k : String) (b : ℚ) : Bool :=
  match getField d k with
  | some (Value.num x) => decide (x ≤ b)
  | _ => false

/-- Evaluation of a range condition on a document field. -/
def evalRange (d : Doc) (k : String) (r : RangeCond) : Bool :=
  (match r.gte with | none => true | some b => cmpGe d k b) &&
  (match r.lte with | none => true | some b => cmpLe d k b)

/-- Modelled after the document store's documented query semantics: the
conjunction of the clauses of the filter; the `$or` clause is the
disjunction of its three regex sub-conditions. -/
def evalMongoFilter (f : MongoFilter) (d : Doc) : Bool :=
  (match f.orRegex with
   | none => true
   | some pat =>
     matchRegexField d "title" pat || matchRegexField d "description" pat ||
     matchRegexField d "address" pat) &&
  (match f.region with
   | none => true
   | some r => getField d "region" == some (Value.str r)) &&
  evalRange d f.priceField f.price &&
  evalRange d "size_sqm" f.size

/-- Modelled from the spec: `get_documents` lives in `database.py`, which
is not among the provided sources; per the spec the store supports
find-many with a conjunctive filter and a result-count cap. -/
def get_documents (store : List Doc) (filt : MongoFilter) (limit : Nat) :
    List Doc :=
  (store.filter (fun d => evalMongoFilter filt d)).take limit

/-- The search response: shaped documents and their count. -/
structure SearchResponse where
  results : List Doc
  total : Nat
deriving DecidableEq, Repr

/-- The shaping step `shape` of `main.py`: drop the store-assigned `_id` key, keep everything
else. -/
def shape (doc : Doc) : Doc := doc.filter (fun kv => kv.1 != "_id")

/-- The search handler `search_properties` of `main.py`: build the filter, fetch up to `limit`
matching documents, strip `_id`, and report the post-limit count. -/
def search_properties (p : SearchParams) (store : List Doc) : SearchResponse :=
  let docs := get_documents store (buildMongoFilter p) p.limit
  let results := docs.map shape
  { results := results, total := results.length }

/-- A search request supplying only `q` (all other parameters at their
declared defaults). -/
def qOnly (q : String) : SearchParams := { q := some q }

/-! ## Spec-side substring predicate (for claim C3) -/

/-- Is `w` a prefix of `s`? (Executable helper for the substring
predicate.) -/
def leadsWith : List Char → List Char → Bool
  | [], _ => true
  | _ :: _, [] => false
  | c :: w, d :: s => c == d && leadsWith w s

/-- Does `w` occur contiguously inside `s`? -/
def occursIn : List Char → List Char → Bool
  | w, [] => leadsWith w []
  | w, d :: t => leadsWith w (d :: t) || occursIn w t

/-- Lower-case a string character-wise. -/
def lowerStr (s : String) : String := ⟨s.data.map Char.toLower⟩

/-- Stated from the spec's words (claim C3): `q` occurs as a
case-insensitive substring of `s`. -/
def ciContains (q s : String) : Bool :=
  occursIn (lowerStr q).toList (lowerStr s).toList

/-- A pattern character that the regex engine treats as a plain literal:
not an escape, operator, or other metacharacter. -/
def plainChar (c : Char) : Bool :=
  !(c = '\\' || c = '.' || c = '*' || c = '+' || c = '?' ||
    c ∈ unsupportedChars)

/-! ## Declarative regular-expression semantics (for claim C3) -/

/-- Declarative matching relation for `RE`, with case-insensitive
literals (mirroring the `i` option of the engine). -/
inductive RMatch : RE → List Char → Prop where
  | eps : RMatch RE.eps []
  | lit {c d : Char} (h : c.toLower = d.toLower) : RMatch (RE.lit c) [d]
  | dot (c : Char) : RMatch RE.dot [c]
  | altL {a b : RE} {s : List Char} (h : RMatch a s) : RMatch (RE.alt a b) s
  | altR {a b : RE} {s : List Char} (h : RMatch b s) : RMatch (RE.alt a b) s
  | cat {a b : RE} {s t : List Char} (ha : RMatch a s) (hb : RMatch b t) :
      RMatch (RE.cat a b) (s ++ t)
  | starNil {a : RE} : RMatch (RE.star a) []
  | starCons {a : RE} {s t : List Char} (ha : RMatch a s)
      (hb : RMatch (RE.star a) t) : RMatch (RE.star a) (s ++ t)

/-- The expression a metacharacter-free pattern parses to: the
concatenation of its literals. -/
def litChain : List Char → RE
  | [] => RE.eps
  | c :: w => RE.cat (RE.lit c) (litChain w)

/-! ## Concrete sample data -/

/-- The spec's example create payload: a 65 m² Plovdiv apartment at
50000 EUR. -/
def samplePayload : Doc :=
  [("title", Value.str "2-bed apt"), ("region", Value.str "Plovdiv"),
   ("size_sqm", Value.num 65), ("currency", Value.str "EUR"),
   ("price_value", Value.num 50000)]

/-- The stored document the sample payload produces (identity `"0"`). -/
def sampleDoc : Doc :=
  [("title", Value.str "2-bed apt"), ("region", Value.str "Plovdiv"),
   ("address", Value.null), ("description", Value.null),
   ("size_sqm", Value.num 65), ("currency", Value.str "EUR"),
   ("price_value", Value.num 50000), ("images", Value.null),
   ("price_eur", Value.num 50000), ("price_bgn", Value.num (977915/10)),
   ("_id", Value.str "0")]

/-- A one-document store holding the sample document. -/
def sampleStore : List Doc := [sampleDoc]

/-- A create payload whose title is the empty string and whose remaining
fields are valid. -/
def emptyTitlePayload : Doc :=
  [("title", Value.str ""), ("region", Value.str "Plovdiv"),
   ("size_sqm", Value.num 65), ("price_value", Value.num 50000)]

/-- A BGN price for which the rounded BGN→EUR→BGN round trip misses the
original value by more than 0.01: 2.00472379417 (= 1.024999 × 1.95583). -/
def cexPrice : ℚ := 200472379417 / 100000000000

/-- A stored listing whose title is "abc" and whose other text fields are
absent. -/
def regexDoc : Doc :=
  [("title", Value.str "abc"), ("region", Value.str "Plovdiv"),
   ("size_sqm", Value.num 50), ("currency", Value.str "EUR"),
   ("price_value", Value.num 1000), ("price_eur", Value.num 1000),
   ("price_bgn", Value.num (195583/100)), ("_id", Value.str "1")]

/-! ## Helper lemmas -/

/-- A field name contributed by `errIf` is the field it checks. -/
theorem mem_errIf {α : Type} {o : Option α} {fld g : String}
    (h : g ∈ errIf o fld) : g = fld := by
  cases o with
  | none => simpa [errIf] using h
  | some _ => simp [errIf] at h

/-- C1: for every create request that passes validation, the stored
document's `price_eur`/`price_bgn` are exactly the derived prices the spec
prescribes from `price_value` and `currency` (identity on the native side,
conversion by 1.95583 on the other), both rounded to 2 decimals. -/
theorem create_normalizes_prices (payload : Doc) (store : List Doc)
    (r : Property) (h : validateProperty payload = Except.ok r) :
    ∃ d : Doc, (create_property store payload).2 = store ++ [d] ∧
      getField d "price_eur" =
        some (Value.num (specNormalizedPrices r.price_value r.currency).1) ∧
      getField d "price_bgn" =
        some (Value.num (specNormalizedPrices r.price_value r.currency).2) := by
  simp only [create_property, h, create_document]
  refine ⟨_, rfl, ?_, ?_⟩ <;>
    by_cases hc : r.currency = "EUR" <;>
      simp [getField, model_dump, List.find?, specNormalizedPrices, hc]

/-- C1 witness: the spec's example payload validates, and its stored
document carries `price_eur = 50000` and `price_bgn = 97791.5`. -/
theorem create_normalizes_prices_witness :
    validateProperty samplePayload = Except.ok
      { title := "2-bed apt", region := "Plovdiv", address := none,
        description := none, size_sqm := 65, currency := "EUR",
        price_value := 50000, images := none } ∧
    ∃ d : Doc, (create_property [] samplePayload).2 = [] ++ [d] ∧
      getField d "price_eur" = some (Value.num (specNormalizedPrices 50000 "EUR").1) ∧
      getField d "price_bgn" = some (Value.num (specNormalizedPrices 50000 "EUR").2) :=
  ⟨rfl, create_normalizes_prices samplePayload []
    { title := "2-bed apt", region := "Plovdiv", address := none,
      description := none, size_sqm := 65, currency := "EUR",
      price_value := 50000, images := none } rfl⟩

/-- C9: supplying `q` as the empty string builds the same filter — and so
returns the same results — as omitting `q`: Python's `if q:` is false for
both `None` and `""`, so an empty `q` contributes no clause. -/
theorem search_empty_q_like_absent (p : SearchParams) (store : List Doc) :
    search_properties { p with q := some "" } store =
    search_properties { p with q := none } store := by
  rfl

/-- If some parameter is among the search-parameter errors, parsing the
query string fails with exactly that error list. -/
theorem parse_error_of_mem {raw : RawSearchParams} {fld : String}
    (h : fld ∈ searchParamErrors raw) :
    parseSearchParams raw = Except.error (searchParamErrors raw) := by
  have hne : (searchParamErrors raw).isEmpty = false := by
    simpa [List.isEmpty_iff] using List.ne_nil_of_mem h
  simp [parseSearchParams, hne]

/-- C5: `limit` defaults to 50 when absent; a supplied value outside
`[1, 200]` is rejected (naming `limit`), not clamped; and a search never
returns more than `limit` results. -/
theorem search_limit_contract :
    (∀ (raw : RawSearchParams) (sp : SearchParams), raw.limit = none →
      parseSearchParams raw = Except.ok sp → sp.limit = 50) ∧
    (∀ (raw : RawSearchParams) (v : Int), raw.limit = some v →
      (v < 1 ∨ 200 < v) →
      ∃ errs, parseSearchParams raw = Except.error errs ∧ "limit" ∈ errs) ∧
    (∀ (p : SearchParams) (store : List Doc),
      (search_properties p store).results.length ≤ p.limit) := by
  refine ⟨?_, ?_, ?_⟩
  · intro raw sp h hp
    unfold parseSearchParams at hp
    split at hp
    · cases hp
      simp [h]
    · exact absurd hp (by simp)
  · intro raw v h hv
    have hmem : "limit" ∈ searchParamErrors raw := by
      have : (match raw.limit with
        | none => []
        | some v => if 1 ≤ v ∧ v ≤ 200 then [] else ["limit"]) = ["limit"] := by
        rw [h]
        have : ¬(1 ≤ v ∧ v ≤ 200) := by omega
        simp [this]
      unfold searchParamErrors
      rw [this]
      simp
    exact ⟨searchParamErrors raw, parse_error_of_mem hmem, hmem⟩
  · intro p store
    simpa [search_properties, get_documents] using
      List.length_take_le p.limit _

/-- C5 witness: `limit=0` is rejected as out of range; the default-limit
and result-cap parts instantiated at the default parameters and the empty
store. -/
theorem search_limit_contract_witness :
    (∃ errs, parseSearchParams { limit := some 0 } = Except.error errs ∧
      "limit" ∈ errs) ∧
    (search_properties {} []).results.length ≤ (50 : Nat) :=
  ⟨search_limit_contract.2.1 { limit := some 0 } 0 rfl (Or.inl (by norm_num)),
   search_limit_contract.2.2 {} []⟩

/-- C10: a strictly negative `min_price`, `max_price`, `min_sqm` or
`max_sqm` is rejected by the `ge=0` constraint on the query parameter,
with the offending parameter named. -/
theorem search_rejects_negative_ranges (raw : RawSearchParams) (v : ℚ)
    (hv : v < 0) :
    (raw.min_price = some v →
      ∃ errs, parseSearchParams raw = Except.error errs ∧ "min_price" ∈ errs) ∧
    (raw.max_price = some v →
      ∃ errs, parseSearchParams raw = Except.error errs ∧ "max_price" ∈ errs) ∧
    (raw.min_sqm = some v →
      ∃ errs, parseSearchParams raw = Except.error errs ∧ "min_sqm" ∈ errs) ∧
    (raw.max_sqm = some v →
      ∃ errs, parseSearchParams raw = Except.error errs ∧ "max_sqm" ∈ errs) := by
  have hneg : ¬(0 ≤ v) := not_le.mpr hv
  refine ⟨fun h => ?_, fun h => ?_, fun h => ?_, fun h => ?_⟩
  · have hmem : "min_price" ∈ searchParamErrors raw := by
      unfold searchParamErrors nonnegErr
      rw [h]
      simp [hneg]
    exact ⟨_, parse_error_of_mem hmem, hmem⟩
  · have hmem : "max_price" ∈ searchParamErrors raw := by
      unfold searchParamErrors nonnegErr
      rw [h]
      simp [hneg]
    exact ⟨_, parse_error_of_mem hmem, hmem⟩
  · have hmem : "min_sqm" ∈ searchParamErrors raw := by
      unfold searchParamErrors nonnegErr
      rw [h]
      simp [hneg]
    exact ⟨_, parse_error_of_mem hmem, hmem⟩
  · have hmem : "max_sqm" ∈ searchParamErrors raw := by
      unfold searchParamErrors nonnegErr
      rw [h]
      simp [hneg]
    exact ⟨_, parse_error_of_mem hmem, hmem⟩

/-- C10 witness: `min_price = -1` is rejected naming `min_price`. -/
theorem search_rejects_negative_ranges_witness :
    ∃ errs, parseSearchParams { min_price := some (-1) } = Except.error errs ∧
      "min_price" ∈ errs :=
  (search_rejects_negative_ranges { min_price := some (-1) } (-1)
    (by norm_num)).1 rfl

/-- C8 counterexample: an otherwise-valid payload whose `title` is the
empty string *passes* validation and *is* persisted — the model declares
`title: str` with no emptiness constraint, so the claim "empty titles are
rejected" is false on the code. -/
theorem empty_title_accepted_cex :
    validateProperty emptyTitlePayload = Except.ok
      { title := "", region := "Plovdiv", address := none,
        description := none, size_sqm := 65, currency := "EUR",
        price_value := 50000, images := none } ∧
    (create_property [] emptyTitlePayload).2 ≠ [] :=
  ⟨rfl, by decide⟩

/-- C8 amended: validation imposes no non-emptiness on `title` — any
payload whose `title` is a string, the empty string included, has no
`title` validation error; an empty-title listing can therefore be
persisted. -/
theorem title_accepts_any_string (p : Doc) (s : String)
    (h : getField p "title" = some (Value.str s)) :
    "title" ∉ validateErrors p := by
  intro hmem
  have ht : titleVal p = some s := by unfold titleVal; rw [h]
  simp only [validateErrors, List.mem_append] at hmem
  rcases hmem with ((((((h1 | h2) | h3) | h4) | h5) | h6) | h7) | h8
  · rw [ht] at h1; simp [errIf] at h1
  · exact absurd (mem_errIf h2) (by decide)
  · exact absurd (mem_errIf h3) (by decide)
  · exact absurd (mem_errIf h4) (by decide)
  · exact absurd (mem_errIf h5) (by decide)
  · exact absurd (mem_errIf h6) (by decide)
  · exact absurd (mem_errIf h7) (by decide)
  · exact absurd (mem_errIf h8) (by decide)

/-- C8 amended witness: the empty-title payload has `title` as a string
and indeed gets no `title` error. -/
theorem title_accepts_any_string_witness :
    getField emptyTitlePayload "title" = some (Value.str "") ∧
    "title" ∉ validateErrors emptyTitlePayload :=
  ⟨rfl, title_accepts_any_string emptyTitlePayload "" rfl⟩

/-- Unfolding field lookup one binding at a time. -/
theorem getField_cons (kv : String × Value) (d : Doc) (k : String) :
    getField (kv :: d) k =
      if (kv.1 == k) = true then some kv.2 else getField d k := by
  cases hb : kv.1 == k <;> simp [getField, List.find?, hb]

/-- Unfolding shaping one binding at a time. -/
theorem shape_cons (kv : String × Value) (d : Doc) :
    shape (kv :: d) =
      if (kv.1 == "_id") = true then shape d else kv :: shape d := by
  cases hb : kv.1 == "_id" <;> simp [shape, List.filter_cons, bne, hb]

/-- Shaping never exposes `_id`. -/
theorem getField_shape_id (d : Doc) : getField (shape d) "_id" = none := by
  induction d with
  | nil => rfl
  | cons kv d ih =>
    by_cases hb : (kv.1 == "_id") = true
    · rw [shape_cons, if_pos hb]
      exact ih
    · rw [shape_cons, if_neg hb, getField_cons, if_neg hb]
      exact ih

/-- Shaping preserves every field other than `_id`. -/
theorem getField_shape (d : Doc) (k : String) (hk : k ≠ "_id") :
    getField (shape d) k = getField d k := by
  induction d with
  | nil => rfl
  | cons kv d ih =>
    by_cases hb : (kv.1 == "_id") = true
    · have h1 : kv.1 = "_id" := by simpa using hb
      have hbk : (kv.1 == k) = false := by
        refine beq_eq_false_iff_ne.mpr ?_
        rw [h1]
        exact Ne.symm hk
      rw [shape_cons, if_pos hb, getField_cons, if_neg (by simp [hbk])]
      exact ih
    · rw [shape_cons, if_neg hb, getField_cons, getField_cons]
      by_cases hbk : (kv.1 == k) = true
      · rw [if_pos hbk, if_pos hbk]
      · rw [if_neg hbk, if_neg hbk]
        exact ih

/-- A result of a search comes from a store document that satisfies the
built filter. -/
theorem mem_results_elim {p : SearchParams} {store : List Doc} {r : Doc}
    (h : r ∈ (search_properties p store).results) :
    ∃ d ∈ store, evalMongoFilter (buildMongoFilter p) d = true ∧
      r = shape d := by
  simp only [search_properties, get_documents] at h
  obtain ⟨d, hd, rfl⟩ := List.mem_map.mp h
  have hd' := List.take_subset _ _ hd
  exact ⟨d, List.mem_of_mem_filter hd', (List.mem_filter.mp hd').2, rfl⟩

/-- C4: `min_price` and `max_price` act as inclusive bounds on the price
field selected by `price_currency` (`price_eur` when it is `"EUR"`,
`price_bgn` otherwise; the parameter defaults to `"EUR"` when absent):
every returned record carries a numeric value in that field satisfying
every supplied bound. -/
theorem search_price_bounds :
    (∀ (raw : RawSearchParams) (sp : SearchParams), raw.price_currency = none →
      parseSearchParams raw = Except.ok sp → sp.price_currency = some "EUR") ∧
    (∀ (p : SearchParams) (store : List Doc) (r : Doc),
      r ∈ (search_properties p store).results →
      (∀ m, p.min_price = some m →
        ∃ x, getField r (if p.price_currency = some "EUR"
          then "price_eur" else "price_bgn") = some (Value.num x) ∧ m ≤ x) ∧
      (∀ m, p.max_price = some m →
        ∃ x, getField r (if p.price_currency = some "EUR"
          then "price_eur" else "price_bgn") = some (Value.num x) ∧ x ≤ m)) := by
  constructor
  · intro raw sp h hp
    unfold parseSearchParams at hp
    split at hp
    · cases hp
      simp [h]
    · exact absurd hp (by simp)
  · intro p store r hr
    obtain ⟨d, _, hev, rfl⟩ := mem_results_elim hr
    have hfld : (if p.price_currency = some "EUR"
        then "price_eur" else "price_bgn") ≠ "_id" := by
      split <;> decide
    rw [getField_shape d _ hfld]
    simp only [evalMongoFilter, Bool.and_eq_true] at hev
    have hrange := hev.1.2
    simp only [buildMongoFilter, evalRange, Bool.and_eq_true] at hrange
    constructor
    · intro m hm
      have h1 := hrange.1
      simp only [hm] at h1
      unfold cmpGe at h1
      split at h1
      · next x heq => exact ⟨x, heq, of_decide_eq_true h1⟩
      · exact absurd h1 (by simp)
    · intro m hm
      have h2 := hrange.2
      simp only [hm] at h2
      unfold cmpLe at h2
      split at h2
      · next x heq => exact ⟨x, heq, of_decide_eq_true h2⟩
      · exact absurd h2 (by simp)

/-- C4 witness: searching the one-document sample store with
`min_price=40000, max_price=60000` (price currency defaulting to EUR)
returns the sample record, whose `price_eur` 50000 satisfies both bounds;
and an absent `price_currency` parses to the default `"EUR"`. -/
theorem search_price_bounds_witness :
    (parseSearchParams {} = Except.ok
      ({ } : SearchParams) → (({ } : SearchParams)).price_currency = some "EUR") ∧
    shape sampleDoc ∈ (search_properties
      { min_price := some 40000, max_price := some 60000 } sampleStore).results ∧
    (∃ x, getField (shape sampleDoc) "price_eur" = some (Value.num x) ∧
      40000 ≤ x) ∧
    (∃ x, getField (shape sampleDoc) "price_eur" = some (Value.num x) ∧
      x ≤ 60000) := by
  have hres : (search_properties
      { min_price := some 40000, max_price := some 60000 } sampleStore).results =
      [shape sampleDoc] := by rfl
  have hmem : shape sampleDoc ∈ (search_properties
      { min_price := some 40000, max_price := some 60000 } sampleStore).results := by
    rw [hres]
    exact List.mem_singleton.mpr rfl
  have h := search_price_bounds.2
    { min_price := some 40000, max_price := some 60000 } sampleStore
    (shape sampleDoc) hmem
  exact ⟨fun _ => search_price_bounds.1 {} {} rfl (by rfl),
    hmem, h.1 40000 rfl, h.2 60000 rfl⟩

/-- C6: every search result is its store document with exactly the
store-assigned `_id` stripped and all other fields preserved, and the
response's `total` equals the number of returned (post-limit) results. -/
theorem search_shapes_results (p : SearchParams) (store : List Doc) :
    (search_properties p store).total =
      (search_properties p store).results.length ∧
    ∀ r ∈ (search_properties p store).results,
      ∃ d ∈ store, r = shape d ∧ getField r "_id" = none ∧
        ∀ k, k ≠ "_id" → getField r k = getField d k := by
  refine ⟨rfl, fun r hr => ?_⟩
  obtain ⟨d, hd, _, rfl⟩ := mem_results_elim hr
  exact ⟨d, hd, rfl, getField_shape_id d, fun k hk => getField_shape d k hk⟩

/-- C6 witness: on the sample store with default parameters, the one
result is the sample document without `_id`, fields otherwise intact, and
`total` is the returned count. -/
theorem search_shapes_results_witness :
    shape sampleDoc ∈ (search_properties {} sampleStore).results ∧
    (search_properties {} sampleStore).total =
      (search_properties {} sampleStore).results.length ∧
    ∃ d ∈ sampleStore, shape sampleDoc = shape d ∧
      getField (shape sampleDoc) "_id" = none ∧
      ∀ k, k ≠ "_id" → getField (shape sampleDoc) k = getField d k := by
  have hres : (search_properties {} sampleStore).results = [shape sampleDoc] := by
    rfl
  have hmem : shape sampleDoc ∈ (search_properties {} sampleStore).results := by
    rw [hres]
    exact List.mem_singleton.mpr rfl
  have h := search_shapes_results {} sampleStore
  exact ⟨hmem, h.1, h.2 (shape sampleDoc) hmem⟩

/-- Round half to even moves a rational by at most 1/2. -/
theorem roundHalfEven_err (x : ℚ) : |(roundHalfEven x : ℚ) - x| ≤ 1/2 := by
  have h0 : (⌊x⌋ : ℚ) ≤ x := Int.floor_le x
  have h1 : x < ⌊x⌋ + 1 := Int.lt_floor_add_one x
  unfold roundHalfEven
  split_ifs with ha hb hc
  · rw [abs_sub_comm, abs_of_nonneg (by linarith)]
    linarith
  · push_cast
    rw [abs_of_nonneg (by linarith)]
    linarith
  · have hr : x - ⌊x⌋ = 1/2 := le_antisymm (not_lt.mp hb) (not_lt.mp ha)
    rw [abs_sub_comm, abs_of_nonneg (by linarith)]
    linarith
  · have hr : x - ⌊x⌋ = 1/2 := le_antisymm (not_lt.mp hb) (not_lt.mp ha)
    push_cast
    rw [abs_of_nonneg (by linarith)]
    linarith

/-- Rounding to two decimals moves a rational by at most 1/200. -/
theorem round2_err (x : ℚ) : |round2 x - x| ≤ 1/200 := by
  have h := roundHalfEven_err (x * 100)
  have hx : round2 x - x = ((roundHalfEven (x * 100) : ℚ) - x * 100) / 100 := by
    rw [round2]
    ring
  rw [hx, abs_div]
  rw [show |(100 : ℚ)| = 100 from by norm_num]
  linarith

/-- Generic two-step round-trip bound: convert with rounding by a positive
factor `c`, convert back with rounding, and the error is at most
`1/200 + c⁻¹/200`. -/
theorem roundtrip_le (v c : ℚ) (hc : 0 < c) :
    |round2 (round2 (v * c) * c⁻¹) - v| ≤ 1/200 + c⁻¹/200 := by
  have h1 := round2_err (v * c)
  have h2 := round2_err (round2 (v * c) * c⁻¹)
  have hinv : (0 : ℚ) < c⁻¹ := inv_pos.mpr hc
  have hmid : round2 (v * c) * c⁻¹ - v = (round2 (v * c) - v * c) * c⁻¹ := by
    field_simp
    ring
  have hb : |round2 (v * c) * c⁻¹ - v| ≤ (1/200) * c⁻¹ := by
    rw [hmid, abs_mul, abs_of_pos hinv]
    exact mul_le_mul_of_nonneg_right h1 (le_of_lt hinv)
  calc |round2 (round2 (v * c) * c⁻¹) - v|
      ≤ |round2 (round2 (v * c) * c⁻¹) - round2 (v * c) * c⁻¹| +
        |round2 (v * c) * c⁻¹ - v| := abs_sub_le _ _ _
    _ ≤ 1/200 + (1/200) * c⁻¹ := add_le_add h2 hb
    _ = 1/200 + c⁻¹/200 := by ring

/-- Evaluating `round2` when the scaled value sits in the rounding-down
half-interval `[n, n + 1/2)`. -/
theorem round2_down (x : ℚ) (n : ℤ) (h1 : (n : ℚ) ≤ x * 100)
    (h2 : x * 100 - n < 1/2) : round2 x = (n : ℚ)/100 := by
  have hf : ⌊x * 100⌋ = n := by
    rw [Int.floor_eq_iff]
    constructor
    · exact_mod_cast h1
    · push_cast
      linarith
  unfold round2 roundHalfEven
  rw [hf, if_pos (by linarith)]

/-- C7 counterexample: for the valid BGN price 2.00472379417 the
BGN→EUR→BGN round trip through the fixed rate with 2-decimal rounding
lands more than 0.01 away from the original value (the EUR intermediate
rounds to 1.02, whose BGN image rounds to 1.99, off by ≈ 0.0147). -/
theorem price_roundtrip_tolerance_cex :
    0 < cexPrice ∧
    1/100 < |round2 (round2 (cexPrice / EUR_TO_BGN) * EUR_TO_BGN) - cexPrice| := by
  have ha : round2 (cexPrice / EUR_TO_BGN) = (102 : ℤ)/100 := by
    rw [show cexPrice / EUR_TO_BGN = 1024999/1000000 from by
      norm_num [cexPrice, EUR_TO_BGN]]
    exact round2_down _ 102 (by norm_num) (by norm_num)
  have hb : round2 (((102 : ℤ) : ℚ)/100 * EUR_TO_BGN) = (199 : ℤ)/100 := by
    rw [show ((102 : ℤ) : ℚ)/100 * EUR_TO_BGN = 19949466/10000000 from by
      norm_num [EUR_TO_BGN]]
    exact round2_down _ 199 (by norm_num) (by norm_num)
  refine ⟨by norm_num [cexPrice], ?_⟩
  rw [ha, hb, abs_of_nonpos (by norm_num [cexPrice])]
  norm_num [cexPrice]

/-- C7 amended: every positive price round-trips within 0.01 in the
EUR→BGN→EUR direction, and within 0.01478 (= (1 + 1.95583)/200, rounded
up) in the BGN→EUR→BGN direction; the 0.01 tolerance holds only for the
EUR-native direction. -/
theorem price_roundtrip_bounds (v : ℚ) (hv : 0 < v) :
    |round2 (round2 (v * EUR_TO_BGN) / EUR_TO_BGN) - v| ≤ 1/100 ∧
    |round2 (round2 (v / EUR_TO_BGN) * EUR_TO_BGN) - v| ≤ 1478/100000 := by
  have hR : (0 : ℚ) < EUR_TO_BGN := by norm_num [EUR_TO_BGN]
  constructor
  · have h := roundtrip_le v EUR_TO_BGN hR
    rw [div_eq_mul_inv]
    calc |round2 (round2 (v * EUR_TO_BGN) * EUR_TO_BGN⁻¹) - v|
        ≤ 1/200 + EUR_TO_BGN⁻¹/200 := h
      _ ≤ 1/100 := by norm_num [EUR_TO_BGN]
  · have h := roundtrip_le v EUR_TO_BGN⁻¹ (inv_pos.mpr hR)
    rw [inv_inv] at h
    rw [div_eq_mul_inv]
    calc |round2 (round2 (v * EUR_TO_BGN⁻¹) * EUR_TO_BGN) - v|
        ≤ 1/200 + EUR_TO_BGN/200 := h
      _ ≤ 1478/100000 := by norm_num [EUR_TO_BGN]

/-- C7 amended witness: the price 1 round-trips exactly in both
directions, well within both bounds. -/
theorem price_roundtrip_bounds_witness :
    (0 : ℚ) < 1 ∧
    |round2 (round2 (1 * EUR_TO_BGN) / EUR_TO_BGN) - 1| ≤ 1/100 ∧
    |round2 (round2 (1 / EUR_TO_BGN) * EUR_TO_BGN) - 1| ≤ 1478/100000 :=
  ⟨by norm_num, (price_roundtrip_bounds 1 (by norm_num)).1,
   (price_roundtrip_bounds 1 (by norm_num)).2⟩

/-- Inversion for concatenation matches. -/
theorem rmatch_cat_inv {a b : RE} {s : List Char}
    (h : RMatch (RE.cat a b) s) :
    ∃ s1 s2, s = s1 ++ s2 ∧ RMatch a s1 ∧ RMatch b s2 := by
  cases h with
  | cat ha hb => exact ⟨_, _, rfl, ha, hb⟩

/-- Correctness of `nullable`: it decides empty-word membership. -/
theorem nullable_iff (r : RE) : nullable r = true ↔ RMatch r [] := by
  induction r with
  | emp => simp [nullable]; intro h; cases h
  | eps => simp [nullable]; exact RMatch.eps
  | lit c => simp [nullable]; intro h; cases h
  | dot => simp [nullable]; intro h; cases h
  | alt a b iha ihb =>
    simp only [nullable, Bool.or_eq_true, iha, ihb]
    constructor
    · rintro (h | h)
      · exact RMatch.altL h
      · exact RMatch.altR h
    · intro h
      cases h with
      | altL h => exact Or.inl h
      | altR h => exact Or.inr h
  | cat a b iha ihb =>
    simp only [nullable, Bool.and_eq_true, iha, ihb]
    constructor
    · rintro ⟨ha, hb⟩
      exact (List.nil_append [] ▸ RMatch.cat ha hb : RMatch (RE.cat a b) [])
    · intro h
      obtain ⟨s1, s2, hst, ha, hb⟩ := rmatch_cat_inv h
      obtain ⟨hs, ht⟩ := List.append_eq_nil.mp hst.symm
      exact ⟨hs ▸ ha, ht ▸ hb⟩
  | star a iha =>
    simp only [nullable, true_iff]
    exact RMatch.starNil

/-- Soundness of the derivative: a match of the derivative extends to a
match of the original expression with the character prepended. -/
theorem deriv_sound (r : RE) (c : Char) (s : List Char)
    (h : RMatch (deriv r c) s) : RMatch r (c :: s) := by
  induction r generalizing s with
  | emp => cases h
  | eps => cases h
  | lit c' =>
    unfold deriv at h
    split_ifs at h with hc
    · cases h
      exact RMatch.lit hc
    · cases h
  | dot =>
    cases h
    exact RMatch.dot c
  | alt a b iha ihb =>
    cases h with
    | altL h => exact RMatch.altL (iha _ h)
    | altR h => exact RMatch.altR (ihb _ h)
  | cat a b iha ihb =>
    unfold deriv at h
    split_ifs at h with hn
    · cases h with
      | altL h =>
        cases h with
        | cat ha hb => exact RMatch.cat (iha _ ha) hb
      | altR h =>
        have ha0 : RMatch a [] := (nullable_iff a).mp hn
        exact (RMatch.cat ha0 (ihb _ h) : RMatch (RE.cat a b) ([] ++ c :: s))
    · cases h with
      | cat ha hb => exact RMatch.cat (iha _ ha) hb
  | star a iha =>
    cases h with
    | cat ha hb => exact RMatch.starCons (iha _ ha) hb

/-- Completeness of the derivative: a match starting with `c` yields a
match of the derivative by `c` on the tail. -/
theorem deriv_complete (r : RE) (u : List Char) (h : RMatch r u) :
    ∀ (c : Char) (s : List Char), u = c :: s → RMatch (deriv r c) s := by
  induction h with
  | eps => intro c s h; cases h
  | lit hl =>
    intro c s h
    cases h
    unfold deriv
    rw [if_pos hl]
    exact RMatch.eps
  | dot =>
    intro c s h
    cases h
    exact RMatch.eps
  | altL _ ih =>
    intro c s h
    exact RMatch.altL (ih c s h)
  | altR _ ih =>
    intro c s h
    exact RMatch.altR (ih c s h)
  | @cat a b s1 t1 ha hb iha ihb =>
    intro c s h
    unfold deriv
    rcases s1 with _ | ⟨c1, s1'⟩
    · simp only [List.nil_append] at h
      have hn : nullable a = true := (nullable_iff a).mpr ha
      rw [if_pos hn]
      exact RMatch.altR (ihb c s h)
    · simp only [List.cons_append, List.cons.injEq] at h
      obtain ⟨rfl, hrest⟩ := h
      have hda : RMatch (deriv a c1) s1' := iha c1 s1' rfl
      have hcat : RMatch (RE.cat (deriv a c1) b) (s1' ++ t1) := RMatch.cat hda hb
      split_ifs with hn
      · exact hrest ▸ RMatch.altL hcat
      · exact hrest ▸ hcat
  | starNil => intro c s h; cases h
  | @starCons a s1 t1 ha hb iha ihb =>
    intro c s h
    rcases s1 with _ | ⟨c1, s1'⟩
    · simp only [List.nil_append] at h
      exact ihb c s h
    · simp only [List.cons_append, List.cons.injEq] at h
      obtain ⟨rfl, hrest⟩ := h
      have hda : RMatch (deriv a c1) s1' := iha c1 s1' rfl
      exact hrest ▸
        (RMatch.cat hda hb : RMatch (RE.cat (deriv a c1) (RE.star a)) (s1' ++ t1))

/-- The derivative matcher decides the declarative semantics. -/
theorem reMatch_iff (s : List Char) (r : RE) :
    reMatch r s = true ↔ RMatch r s := by
  induction s generalizing r with
  | nil => exact nullable_iff r
  | cons c s ih =>
    have hstep : reMatch r (c :: s) = reMatch (deriv r c) s := rfl
    rw [hstep, ih]
    constructor
    · exact deriv_sound r c s
    · intro h
      exact deriv_complete r (c :: s) h c s rfl

/-- Dot-star matches every word. -/
theorem starDot_all (s : List Char) : RMatch (RE.star RE.dot) s := by
  induction s with
  | nil => exact RMatch.starNil
  | cons c t ih =>
    exact (RMatch.starCons (RMatch.dot c) ih : RMatch (RE.star RE.dot) ([c] ++ t))

/-- The unanchored search accepts exactly the words with a matching
contiguous segment. -/
theorem reSearch_iff (r : RE) (s : List Char) :
    reSearch r s = true ↔ ∃ a m b, s = a ++ m ++ b ∧ RMatch r m := by
  rw [reSearch, reMatch_iff]
  constructor
  · intro h
    obtain ⟨s1, rest, hs, _, hcat⟩ := rmatch_cat_inv h
    obtain ⟨m, s3, hrest, hm, _⟩ := rmatch_cat_inv hcat
    exact ⟨s1, m, s3, by rw [hs, hrest, List.append_assoc], hm⟩
  · rintro ⟨a, m, b, rfl, hm⟩
    have h1 : RMatch (RE.cat r (RE.star RE.dot)) (m ++ b) :=
      RMatch.cat hm (starDot_all b)
    have h2 : RMatch (RE.cat (RE.star RE.dot) (RE.cat r (RE.star RE.dot)))
        (a ++ (m ++ b)) := RMatch.cat (starDot_all a) h1
    simpa [List.append_assoc] using h2

/-- A chain of literals matches exactly the words that agree with it
letter by letter up to case. -/
theorem litChain_iff (w : List Char) (s : List Char) :
    RMatch (litChain w) s ↔ s.map Char.toLower = w.map Char.toLower := by
  induction w generalizing s with
  | nil =>
    constructor
    · intro h
      cases h
      rfl
    · intro h
      have hs : s = [] := by simpa using h
      subst hs
      exact RMatch.eps
  | cons c w ih =>
    constructor
    · intro h
      obtain ⟨s1, s2, rfl, h1, h2⟩ := rmatch_cat_inv h
      cases h1 with
      | lit hl =>
        rename_i d
        simp only [List.singleton_append, List.map_cons, List.cons.injEq]
        exact ⟨hl.symm ▸ rfl, (ih s2).mp h2⟩
    · intro h
      cases s with
      | nil => simp at h
      | cons d s' =>
        simp only [List.map_cons, List.cons.injEq] at h
        obtain ⟨hd, hs'⟩ := h
        exact (RMatch.cat (RMatch.lit hd.symm) ((ih s').mpr hs') :
          RMatch (RE.cat (RE.lit c) (litChain w)) ([d] ++ s'))

/-- A metacharacter-free pattern parses to its chain of literals. -/
theorem parse_plain (n : Nat) (w : List Char) (hn : w.length < n)
    (hw : ∀ c ∈ w, plainChar c = true) :
    parseRE n w = some (litChain w) := by
  induction n generalizing w with
  | zero => exact absurd hn (Nat.not_lt_zero _)
  | succ n ih =>
    cases w with
    | nil => rfl
    | cons c rest =>
      have hc := hw c (List.mem_cons_self c rest)
      simp only [plainChar, Bool.not_eq_true', Bool.or_eq_false_iff,
        decide_eq_false_iff_not] at hc
      obtain ⟨⟨⟨⟨⟨hc1, hc2⟩, hc3⟩, hc4⟩, hc5⟩, hc6⟩ := hc
      have hatom : parseAtom c rest = some (RE.lit c, rest) := by
        unfold parseAtom
        rw [if_neg hc1, if_neg (by tauto), if_neg hc2]
      have hrest : parseRE n rest = some (litChain rest) :=
        ih rest (Nat.lt_of_succ_lt_succ hn)
          (fun d hd => hw d (List.mem_cons_of_mem c hd))
      unfold parseRE
      rw [hatom]
      cases rest with
      | nil =>
        show Option.map (fun t => RE.cat (RE.lit c) t) (parseRE n []) =
          some (litChain [c])
        rw [hrest]
        rfl
      | cons d r3 =>
        have hd := hw d (List.mem_cons_of_mem c (List.mem_cons_self d r3))
        simp only [plainChar, Bool.not_eq_true', Bool.or_eq_false_iff,
          decide_eq_false_iff_not] at hd
        obtain ⟨⟨⟨⟨⟨_, _⟩, hd3⟩, hd4⟩, hd5⟩, _⟩ := hd
        show (if d = '*' then
            Option.map (fun t => RE.cat (RE.star (RE.lit c)) t) (parseRE n r3)
          else if d = '+' then
            Option.map (fun t => RE.cat (RE.cat (RE.lit c) (RE.star (RE.lit c))) t)
              (parseRE n r3)
          else if d = '?' then
            Option.map (fun t => RE.cat (RE.alt (RE.lit c) RE.eps) t) (parseRE n r3)
          else Option.map (fun t => RE.cat (RE.lit c) t) (parseRE n (d :: r3))) =
          some (litChain (c :: d :: r3))
        rw [if_neg hd3, if_neg hd4, if_neg hd5, hrest]
        rfl

/-- Correctness of `leadsWith`: it decides the prefix relation. -/
theorem leadsWith_iff (w s : List Char) :
    leadsWith w s = true ↔ ∃ b, s = w ++ b := by
  induction w generalizing s with
  | nil => simp [leadsWith]
  | cons c w ih =>
    cases s with
    | nil =>
      simp [leadsWith]
    | cons d s' =>
      simp only [leadsWith, Bool.and_eq_true, beq_iff_eq, ih,
        List.cons_append, List.cons.injEq]
      constructor
      · rintro ⟨rfl, b, rfl⟩
        exact ⟨b, rfl, rfl⟩
      · rintro ⟨b, rfl, rfl⟩
        exact ⟨rfl, b, rfl⟩

/-- Correctness of `occursIn`: it decides the contiguous-substring relation. -/
theorem occursIn_iff (w s : List Char) :
    occursIn w s = true ↔ ∃ a b, s = a ++ w ++ b := by
  induction s with
  | nil =>
    rw [occursIn, leadsWith_iff]
    constructor
    · rintro ⟨b, hb⟩
      exact ⟨[], b, by simpa using hb⟩
    · rintro ⟨a, b, hab⟩
      obtain ⟨ha, hw, hb⟩ := by
        simpa [List.append_eq_nil] using hab.symm
      exact ⟨[], by simp [hw, hb]⟩
  | cons d t ih =>
    rw [occursIn, Bool.or_eq_true, leadsWith_iff, ih]
    constructor
    · rintro (⟨b, hb⟩ | ⟨a, b, hab⟩)
      · exact ⟨[], b, by simpa using hb⟩
      · exact ⟨d :: a, b, by simp [hab]⟩
    · rintro ⟨a, b, hab⟩
      cases a with
      | nil => exact Or.inl ⟨b, by simpa using hab⟩
      | cons a0 a' =>
        simp only [List.cons_append, List.cons.injEq] at hab
        exact Or.inr ⟨a', b, hab.2⟩

/-- Splitting a mapped list splits the original list. -/
theorem map_eq_append_decomp {α β : Type} (f : α → β) (s : List α)
    (u v : List β) (h : s.map f = u ++ v) :
    ∃ s1 s2, s = s1 ++ s2 ∧ s1.map f = u ∧ s2.map f = v := by
  induction u generalizing s with
  | nil => exact ⟨[], s, rfl, rfl, by simpa using h⟩
  | cons x u ih =>
    cases s with
    | nil => simp at h
    | cons a s' =>
      simp only [List.map_cons, List.cons_append, List.cons.injEq] at h
      obtain ⟨hx, hrest⟩ := h
      obtain ⟨s1, s2, rfl, hu, hv⟩ := ih s' hrest
      exact ⟨a :: s1, s2, rfl, by simp [hx, hu], hv⟩

/-- For a metacharacter-free pattern the engine's case-insensitive regex
test coincides with the case-insensitive substring predicate. -/
theorem regexTest_plain (q s : String)
    (hq : ∀ c ∈ q.toList, plainChar c = true) :
    regexTest q s = ciContains q s := by
  have hparse : parseRE (q.toList.length + 1) q.toList =
      some (litChain q.toList) :=
    parse_plain _ _ (Nat.lt_succ_self _) hq
  have h1 : regexTest q s = reSearch (litChain q.toList) s.toList := by
    unfold regexTest
    rw [hparse]
  have h2 : ciContains q s =
      occursIn (q.toList.map Char.toLower) (s.toList.map Char.toLower) := rfl
  rw [h1, h2, Bool.eq_iff_iff, reSearch_iff, occursIn_iff]
  constructor
  · rintro ⟨a, m, b, hs, hm⟩
    rw [litChain_iff] at hm
    refine ⟨a.map Char.toLower, b.map Char.toLower, ?_⟩
    rw [hs]
    simp [hm]
  · rintro ⟨a, b, hab⟩
    rw [List.append_assoc] at hab
    obtain ⟨s1, s2, hs, _, hrest⟩ :=
      map_eq_append_decomp Char.toLower s.toList a _ hab
    obtain ⟨s21, s22, hs2, hm, _⟩ :=
      map_eq_append_decomp Char.toLower s2 _ b hrest
    refine ⟨s1, s21, s22, ?_, ?_⟩
    · rw [hs, hs2, List.append_assoc]
    · rw [litChain_iff, hm]

/-- Unfolding one `$regex` sub-condition of the `$or` clause. -/
theorem matchRegexField_iff (d : Doc) (k pat : String) :
    matchRegexField d k pat = true ↔
      ∃ s, getField d k = some (Value.str s) ∧ regexTest pat s = true := by
  unfold matchRegexField
  cases hg : getField d k with
  | none => simp
  | some v => cases v <;> simp

/-- C3 counterexample: with `q = "a.c"` the search returns the stored
listing titled `"abc"`, although `"a.c"` does not occur as a
case-insensitive substring of any of its text fields (`description` and
`address` are absent): the filter hands `q` to `$regex`, where `.` is a
metacharacter, so the claimed equivalence with substring matching fails. -/
theorem search_q_substring_cex :
    (search_properties (qOnly "a.c") [regexDoc]).results = [shape regexDoc] ∧
    ciContains "a.c" "abc" = false ∧
    getField regexDoc "title" = some (Value.str "abc") ∧
    getField regexDoc "description" = none ∧
    getField regexDoc "address" = none :=
  ⟨rfl, rfl, rfl, rfl, rfl⟩

/-- C3 amended: for a non-empty `q`, the constructed filter matches
exactly the stored listings in which `q` matches as a case-insensitive
*unanchored regular expression* against `title`, `description` or
`address` (a missing or null field never matches); when `q` contains no
regex metacharacters this coincides with the claimed case-insensitive
substring semantics. -/
theorem search_q_filter_semantics (q : String) (d : Doc) (hq : q ≠ "") :
    (evalMongoFilter (buildMongoFilter (qOnly q)) d = true ↔
      ∃ fld, fld ∈ (["title", "description", "address"] : List String) ∧
        ∃ s, getField d fld = some (Value.str s) ∧ regexTest q s = true) ∧
    (∀ s : String, (∀ c ∈ q.toList, plainChar c = true) →
      regexTest q s = ciContains q s) := by
  constructor
  · have hfilter : buildMongoFilter (qOnly q) =
        { orRegex := some q, region := none, priceField := "price_eur",
          price := {}, size := {} } := by
      unfold buildMongoFilter qOnly
      simp [hq]
    rw [hfilter]
    simp only [evalMongoFilter, evalRange, Bool.and_true, Bool.true_and,
      Bool.or_eq_true, matchRegexField_iff]
    constructor
    · rintro ((h | h) | h)
      · exact ⟨"title", by simp, h⟩
      · exact ⟨"description", by simp, h⟩
      · exact ⟨"address", by simp, h⟩
    · rintro ⟨fld, hfld, hs⟩
      simp only [List.mem_cons, List.not_mem_nil, or_false] at hfld
      rcases hfld with rfl | rfl | rfl
      · exact Or.inl (Or.inl hs)
      · exact Or.inl (Or.inr hs)
      · exact Or.inr hs
  · intro s hplain
    exact regexTest_plain q s hplain

/-- C3 amended witness: instantiated at the plain pattern `"sofia"` and
the sample listing. -/
theorem search_q_filter_semantics_witness :
    ("sofia" : String) ≠ "" ∧
    ((evalMongoFilter (buildMongoFilter (qOnly "sofia")) regexDoc = true ↔
      ∃ fld, fld ∈ (["title", "description", "address"] : List String) ∧
        ∃ s, getField regexDoc fld = some (Value.str s) ∧
          regexTest "sofia" s = true) ∧
    (∀ s : String, (∀ c ∈ ("sofia" : String).toList, plainChar c = true) →
      regexTest "sofia" s = ciContains "sofia" s)) :=
  ⟨by decide, search_q_filter_semantics "sofia" regexDoc (by decide)⟩

end Bulghousing
